import Mathlib

/-!
Verification of the changelog generator (src/changelog_generator.py) against its
specification. Python functions are embedded as executable Lean definitions; the
external process boundary (git / clock) is made explicit as parameters.
-/

namespace ChangelogGen

/-- Python whitespace class used by `str.strip`, `str.split` defaults and the regex
class `\s`: space, tab, newline, carriage return, vertical tab and form feed. -/
def isPyWs (c : Char) : Bool :=
  c = ' ' || c = '\t' || c = '\n' || c = '\r' || c = '\x0b' || c = '\x0c'

/-- Python `str.strip()`: drop leading and trailing whitespace. -/
def pyStrip (s : String) : String :=
  (((s.toList.dropWhile isPyWs).reverse.dropWhile isPyWs).reverse).asString

/-- Python `str.lower()` (the program only needs ASCII case folding). -/
def pyLower (s : String) : String :=
  (s.toList.map Char.toLower).asString

/-- Python `str.upper()`. -/
def pyUpper (s : String) : String :=
  (s.toList.map Char.toUpper).asString

/-- Helper for `str.title()`: a letter is upper-cased when the previous character is
not a letter and lower-cased otherwise. -/
def pyTitleAux : Bool → List Char → List Char
  | _, [] => []
  | prev, c :: cs =>
    (if c.isAlpha then (if prev then c.toLower else c.toUpper) else c) :: pyTitleAux c.isAlpha cs

/-- Python `str.title()`. -/
def pyTitle (s : String) : String := (pyTitleAux false s.toList).asString

/-- Does the first character list occur as a leading segment of the second. -/
def leadSeg : List Char → List Char → Bool
  | [], _ => true
  | _ :: _, [] => false
  | a :: as, b :: bs => a = b && leadSeg as bs

/-- Substring containment on character lists. -/
def containsSeg (needle : List Char) : List Char → Bool
  | [] => needle.isEmpty
  | c :: cs => leadSeg needle (c :: cs) || containsSeg needle cs

/-- Python substring test `needle in hay`. -/
def pyIn (needle hay : String) : Bool := containsSeg needle.toList hay.toList

/-- Helper for Python `s.split("\n")` on character lists. -/
def splitNLAux : List Char → List (List Char)
  | [] => [[]]
  | c :: cs =>
    if c = '\n' then [] :: splitNLAux cs
    else match splitNLAux cs with
      | [] => [[c]]
      | h :: t => (c :: h) :: t

/-- Python `s.split("\n")`. -/
def pySplitNL (s : String) : List String := (splitNLAux s.toList).map List.asString

/-- Python `sep.join(parts)`. -/
def joinSep (sep : String) : List String → String
  | [] => ""
  | [a] => a
  | a :: b :: rest => a ++ sep ++ joinSep sep (b :: rest)

/-- One value of the COMMIT_TYPES table: display name, icon glyph, sort priority. -/
structure TypeInfo where
  name : String
  icon : String
  priority : Nat
deriving DecidableEq

/-- The static COMMIT_TYPES table (source lines 19-32), an association list in the
source's key order. -/
def COMMIT_TYPES : List (String × TypeInfo) := [
  ("feat", ⟨"Features", "✨", 1⟩),
  ("fix", ⟨"Bug Fixes", "🐛", 2⟩),
  ("docs", ⟨"Documentation", "📝", 4⟩),
  ("style", ⟨"Styles", "💄", 7⟩),
  ("refactor", ⟨"Code Refactoring", "♻️", 5⟩),
  ("perf", ⟨"Performance Improvements", "⚡", 3⟩),
  ("test", ⟨"Tests", "✅", 8⟩),
  ("build", ⟨"Builds", "📦", 6⟩),
  ("ci", ⟨"CI/CD", "🔧", 9⟩),
  ("chore", ⟨"Maintenance", "🔨", 10⟩),
  ("revert", ⟨"Reverts", "⏪", 11⟩),
  ("security", ⟨"Security", "🔒", 0⟩)]

/-- First-occurrence association-list lookup; Python dicts have unique keys, so this
models `d[k]` and `d.get(k)`. -/
def dictGet {β : Type} : List (String × β) → String → Option β
  | [], _ => none
  | (a, b) :: t, k => if a = k then some b else dictGet t k

/-- The sort key `COMMIT_TYPES.get(x, dict()).get("priority", 99)` used by the
markdown and console renderers (source lines 307 and 356). -/
def effPriority (t : String) : Nat :=
  match dictGet COMMIT_TYPES t with
  | some i => i.priority
  | none => 99

/-- The display name `type_info.get("name", commit_type.title())` with the default
dictionary fallback used by all renderers. -/
def typeName (t : String) : String :=
  match dictGet COMMIT_TYPES t with
  | some i => i.name
  | none => pyTitle t

/-- The icon `type_info.get("icon", default)` used by all renderers. -/
def typeIcon (t : String) : String :=
  match dictGet COMMIT_TYPES t with
  | some i => i.icon
  | none => "📌"

/-- Outcome of one `subprocess.run(["git"] + args, capture_output=True, text=True,
check=True)` call: normal completion with captured stdout, a non-zero exit status
(which with check=True raises subprocess.CalledProcessError), or a missing git
binary (which raises FileNotFoundError). -/
inductive GitOutcome
  | success (stdout : String)
  | nonZeroExit (code : Nat)
  | binaryMissing
deriving DecidableEq

/-- Exceptions that can escape run_git_command. -/
inductive PyError
  | fileNotFoundError
deriving DecidableEq

/-- run_git_command (source lines 35-47). The try/except catches only
subprocess.CalledProcessError and returns the empty string for it; a
FileNotFoundError from a missing binary is not caught and propagates. On success
the function returns `result.stdout.strip()`. -/
def run_git_command : GitOutcome → Except PyError String
  | .success out => .ok (pyStrip out)
  | .nonZeroExit _ => .ok ""
  | .binaryMissing => .error .fileNotFoundError

/-- The per-commit record filled by the show-output parsing in get_commit_log. -/
structure RawCommit where
  subject : String
  body : String
  author : String
  email : String
  date : String
deriving DecidableEq

/-- The metadata-detection for-loop of get_commit_log (source lines 88-101),
iterating over `enumerate(lines[1:], 1)` with `author` still holding its initial
value `""`. It returns the assigned (author, email, date, body_lines) when the
break happened with at least 3 lines remaining, and none when the loop broke with
fewer than 3 remaining lines or ran out of lines. -/
def metaScanAux (lines : List String) (author : String) :
    Nat → List String → Option (String × String × String × List String)
  | _, [] => none
  | i, line :: rest =>
    if line = author ∧ i < lines.length then metaScanAux lines author (i + 1) rest
    else if 1 ≤ i ∧ i < lines.length then
      if 3 ≤ (lines.drop i).length then
        some ((lines.drop i).headD "", ((lines.drop i).drop 1).headD "",
          ((lines.drop i).drop 2).headD "", (lines.drop 1).take (i - 1))
      else none
    else none

/-- The show-output parsing section of get_commit_log (source lines 76-114): split
the git show block into lines, take the first line as subject, run the
metadata-detection loop, and if it assigned nothing fall back to taking the last
three lines as author, email and date with everything in between as body. -/
def parseShowOutput (show_output : String) : RawCommit :=
  let lines := pySplitNL show_output
  let subject := lines.headD ""
  match metaScanAux lines "" 1 (lines.drop 1) with
  | some (a, e, d, body_lines) => ⟨subject, joinSep "\n" body_lines, a, e, d⟩
  | none =>
    if 4 ≤ lines.length then
      ⟨subject, joinSep "\n" ((lines.drop 1).take (lines.length - 4)),
        (lines.drop (lines.length - 3)).headD "",
        (lines.drop (lines.length - 2)).headD "",
        (lines.drop (lines.length - 1)).headD ""⟩
    else ⟨subject, "", "", "", ""⟩

/-- The commit dictionary built by get_commit_log (source lines 116-129), with the
keys the classifier and the renderers read. -/
structure Commit where
  hash : String
  subject : String
  body : String
  author : String
  email : String
  date : String
  type : String
  scope : Option String
  breaking : Bool
  conventional_subject : String
  issue_refs : List String
  files_changed : List String
  diff_summary : String
deriving DecidableEq

/-- Regex `\w` as used on this program's ASCII commit subjects. -/
def isWordChar (c : Char) : Bool := c.isAlphanum || c = '_'

/-- Greedy `(.+)$` where `.` excludes newline and `$` matches at the end of the
string or just before a single terminal newline (Python non-MULTILINE semantics). -/
def dotPlusDollar (l : List Char) : Option (List Char) :=
  let run := l.takeWhile (fun c => c != '\n')
  if run.length = l.length then
    if run.isEmpty then none else some run
  else if run.length + 1 = l.length ∧ ¬ run.isEmpty then some run
  else none

/-- Backtracking over a greedy `\s*` before `(.+)$`: the maximal whitespace prefix
is tried first (reversed in the first argument) and given back one character at a
time. -/
def descLoop : List Char → List Char → Option (List Char)
  | [], rem => dotPlusDollar rem
  | c :: wsRev, rem =>
    match dotPlusDollar rem with
    | some d => some d
    | none => descLoop wsRev (c :: rem)

/-- Regex `\s*(.+)$` applied to the text after the colon. -/
def matchDesc (rest : List Char) : Option (List Char) :=
  descLoop (rest.takeWhile isPyWs).reverse (rest.dropWhile isPyWs)

/-- The four captures of the conventional-commit regex. -/
structure ConvMatch where
  ty : String
  scope : Option String
  bang : Bool
  desc : String
deriving DecidableEq

/-- The anchored match of `^(\w+)(?:\(([^)]+)\))?(!)?:\s*(.+)$` (source line 147) as
a deterministic parser. Group 1 is the maximal word-character run (backtracking
into it cannot help, because a shorter run leaves a word character that matches
none of the opening parenthesis, the bang or the colon). The optional scope group
takes the characters up to the first closing parenthesis; when it fails, or when
the continuation after it fails, the regex engine's fallback of skipping the
optional group always fails too, since the pending character is then an opening
parenthesis. The optional bang behaves the same way. -/
def parseConvList (l : List Char) : Option ConvMatch :=
  let tyL := l.takeWhile isWordChar
  let rest1 := l.dropWhile isWordChar
  if tyL.isEmpty then none
  else
    let scopeRest : Option (List Char) × List Char :=
      match rest1 with
      | '(' :: r =>
        let scL := r.takeWhile (fun c => c != ')')
        match r.dropWhile (fun c => c != ')') with
        | ')' :: r2 => if scL.isEmpty then (none, rest1) else (some scL, r2)
        | _ => (none, rest1)
      | _ => (none, rest1)
    let bangRest : Bool × List Char :=
      match scopeRest.2 with
      | '!' :: r => (true, r)
      | _ => (false, scopeRest.2)
    match bangRest.2 with
    | ':' :: rest4 =>
      match matchDesc rest4 with
      | some d => some ⟨tyL.asString, scopeRest.1.map List.asString, bangRest.1, d.asString⟩
      | none => none
    | _ => none

/-- `re.match(pattern, subject)` of parse_conventional_commit. -/
def matchConventional (s : String) : Option ConvMatch := parseConvList s.toList

/-- infer_commit_type (source lines 161-184). -/
def infer_commit_type (subject : String) : String :=
  let subject_lower := pyLower subject
  if ["fix", "bug", "patch", "resolve"].any (fun word => pyIn word subject_lower) then "fix"
  else if ["feat", "add", "new", "implement"].any (fun word => pyIn word subject_lower) then "feat"
  else if ["doc", "readme", "comment"].any (fun word => pyIn word subject_lower) then "docs"
  else if ["refactor", "cleanup", "improve"].any (fun word => pyIn word subject_lower) then "refactor"
  else if ["perf", "optimize", "speed"].any (fun word => pyIn word subject_lower) then "perf"
  else if ["test", "coverage"].any (fun word => pyIn word subject_lower) then "test"
  else if ["security", "vulnerability", "CVE"].any (fun word => pyIn word subject_lower) then "security"
  else if ["build", "deps", "dependency"].any (fun word => pyIn word subject_lower) then "build"
  else if ["ci", "pipeline", "workflow"].any (fun word => pyIn word subject_lower) then "ci"
  else "chore"

/-- The keyword categories of infer_commit_type in their fixed source order. -/
def keywordTable : List (String × List String) := [
  ("fix", ["fix", "bug", "patch", "resolve"]),
  ("feat", ["feat", "add", "new", "implement"]),
  ("docs", ["doc", "readme", "comment"]),
  ("refactor", ["refactor", "cleanup", "improve"]),
  ("perf", ["perf", "optimize", "speed"]),
  ("test", ["test", "coverage"]),
  ("security", ["security", "vulnerability", "CVE"]),
  ("build", ["build", "deps", "dependency"]),
  ("ci", ["ci", "pipeline", "workflow"])]

/-- First category of an ordered keyword table whose word list hits the lowered
subject; "chore" when none does. -/
def firstMatching (subject_lower : String) : List (String × List String) → String
  | [] => "chore"
  | (cat, words) :: rest =>
    if words.any (fun w => pyIn w subject_lower) then cat else firstMatching subject_lower rest

/-- Specification-side reading of the fallback classification: scan the keyword
categories in their fixed priority order and take the first match. -/
def inferSpec (subject : String) : String := firstMatching (pyLower subject) keywordTable

/-- parse_conventional_commit (source lines 142-158): on a regex match set type
(lower-cased), scope, breaking and conventional_subject from the captures;
otherwise infer the type from the subject and keep the subject as
conventional_subject. -/
def parse_conventional_commit (commit : Commit) : Commit :=
  match matchConventional commit.subject with
  | some m =>
    { commit with
      type := pyLower m.ty, scope := m.scope, breaking := m.bang,
      conventional_subject := m.desc }
  | none =>
    { commit with
      type := infer_commit_type commit.subject,
      conventional_subject := commit.subject }

/-- Case-insensitive literal prefix match returning the remainder. -/
def ciStarts : List Char → List Char → Option (List Char)
  | [], l => some l
  | _ :: _, [] => none
  | a :: as, b :: bs => if a.toLower = b.toLower then ciStarts as bs else none

/-- Greedy `(\d+)` at the head of the list, with the captured digits. -/
def digitsAt (l : List Char) : Option (String × List Char) :=
  let ds := l.takeWhile Char.isDigit
  if ds.isEmpty then none else some (ds.asString, l.dropWhile Char.isDigit)

/-- Continuation `\s+#(\d+)` of the first issue-reference pattern. -/
def p1cont (l : List Char) : Option (String × List Char) :=
  if (l.takeWhile isPyWs).isEmpty then none
  else match l.dropWhile isPyWs with
    | '#' :: r => digitsAt r
    | _ => none

/-- One alternative of the first pattern: a base keyword plus an optional trailing
s (greedy, falling back into the continuation), matched case-insensitively. -/
def kwAlt (base : List Char) (l : List Char) : Option (String × List Char) :=
  match ciStarts base l with
  | none => none
  | some r =>
    match r with
    | c :: r2 =>
      if c.toLower = 's' then
        match p1cont r2 with
        | some x => some x
        | none => p1cont r
      else p1cont r
    | [] => p1cont r

/-- The pattern `(?:closes?|fixes?|resolves?|refs?|see)\s+#(\d+)` tried at one
position, with the alternatives in source order. -/
def p1At (l : List Char) : Option (String × List Char) :=
  match kwAlt ['c', 'l', 'o', 's', 'e'] l with
  | some x => some x
  | none => match kwAlt ['f', 'i', 'x', 'e'] l with
    | some x => some x
    | none => match kwAlt ['r', 'e', 's', 'o', 'l', 'v', 'e'] l with
      | some x => some x
      | none => match kwAlt ['r', 'e', 'f'] l with
        | some x => some x
        | none => match ciStarts ['s', 'e', 'e'] l with
          | some r => p1cont r
          | none => none

/-- The pattern `GH[-#](\d+)` tried at one position. -/
def p2At (l : List Char) : Option (String × List Char) :=
  match ciStarts ['g', 'h'] l with
  | some (c :: r) => if c = '-' || c = '#' then digitsAt r else none
  | _ => none

/-- The pattern `(?:PR|MR)[:\s#]?(\d+)` tried at one position; the optional
separator is greedy and backtracks into the digit group. -/
def p3At (l : List Char) : Option (String × List Char) :=
  let kw := match ciStarts ['p', 'r'] l with
    | some r => some r
    | none => ciStarts ['m', 'r'] l
  match kw with
  | some (c :: r2) =>
    if c = ':' || isPyWs c || c = '#' then
      match digitsAt r2 with
      | some x => some x
      | none => digitsAt (c :: r2)
    else digitsAt (c :: r2)
  | _ => none

/-- `re.findall` driver: scan left to right, consuming each non-overlapping match
and advancing one character past failures. The fuel is the text length, which
suffices because every one of the three patterns consumes at least one character. -/
def scanAll (m : List Char → Option (String × List Char)) : Nat → List Char → List String
  | 0, _ => []
  | _ + 1, [] => []
  | fuel + 1, c :: cs =>
    match m (c :: cs) with
    | some (cap, rest) => cap :: scanAll m fuel rest
    | none => scanAll m fuel cs

/-- `re.findall` for the first issue pattern over the whole text. -/
def findallP1 (text : String) : List String := scanAll p1At text.toList.length text.toList

/-- `re.findall` for the GH pattern over the whole text. -/
def findallP2 (text : String) : List String := scanAll p2At text.toList.length text.toList

/-- `re.findall` for the PR/MR pattern over the whole text. -/
def findallP3 (text : String) : List String := scanAll p3At text.toList.length text.toList

/-- extract_issue_references (source lines 187-201): accumulate the three findall
results and return `list(set(refs))`. Python's set iteration order is unspecified;
it is modelled as a deduplication, and the claims proved about it use only
membership and distinctness. -/
def extract_issue_references (text : String) : List String :=
  (findallP1 text ++ findallP2 text ++ findallP3 text).dedup

/-- The per-file branch chain of categorize_files (source lines 261-271): the
category the file contributes, or none. -/
def fileCategory (file : String) : Option String :=
  if pyIn "test" (pyLower file) then some "tests"
  else if pyIn "doc" (pyLower file) || pyIn "readme" (pyLower file) then some "docs"
  else if ["src/lib", "src/app"].any (fun x => pyIn x (pyLower file)) then some "source"
  else if pyIn "config" (pyLower file) then some "config"
  else if pyIn "package" (pyLower file) || pyIn "requirements" (pyLower file) then some "dependencies"
  else none

/-- categorize_files (source lines 257-273): collect the per-file categories into a
set and return `list(categories)[:3]`. The set is modelled as a deduplicated list;
Python's set iteration order is unspecified, and the claims proved here use only
membership, distinctness and the length cap. -/
def categorize_files (files : List String) : List String :=
  ((files.filterMap fileCategory).dedup).take 3

/-- analyze_change_context (source lines 233-254). -/
def analyze_change_context (commit : Commit) : String :=
  let parts : List String :=
    (if commit.breaking then ["⚠️ **BREAKING CHANGE**"] else []) ++
    (if commit.issue_refs.isEmpty then [] else
      ["Addresses: " ++ joinSep ", " (commit.issue_refs.map (fun r => "#" ++ r))]) ++
    (if commit.files_changed.isEmpty then [] else
      (let categories := categorize_files commit.files_changed
       if categories.isEmpty then [] else ["Modified: " ++ joinSep ", " categories]))
  if parts.isEmpty then "" else joinSep " | " parts

/-- generate_changelog_entry (source lines 276-295). The falsy-or chain
`commit.get("conventional_subject") or commit.get("subject", "No description")`
reduces to the subject fallback because the subject key is always present. -/
def generate_changelog_entry (commit : Commit) (include_why : Bool) : String :=
  let subject := if commit.conventional_subject != "" then commit.conventional_subject
    else commit.subject
  let ls1 := ["- " ++ subject]
  let ls2 := ls1 ++ (if include_why then
      (let context := analyze_change_context commit
       if context != "" then ["  - *" ++ context ++ "*"] else [])
    else [])
  let ls3 := ls2 ++ ["  - (" ++ commit.date.take 10 ++ ") - " ++ commit.author]
  joinSep "\n" ls3

/-- A grouped-commit mapping: type name to the commits of that type, in insertion
order (Python dicts preserve it). -/
abbrev Groups := List (String × List Commit)

/-- Stable insertion of one key into a list sorted ascending by the key function. -/
def insertByKey (key : String → Nat) (a : String) : List String → List String
  | [] => [a]
  | b :: bs => if key a < key b then a :: b :: bs else b :: insertByKey key a bs

/-- Python `sorted(keys, key=k)`: a stable ascending sort. -/
def sortByKey (key : String → Nat) (l : List String) : List String :=
  l.foldl (fun acc a => insertByKey key a acc) []

/-- The `sorted(groups.keys(), key=...)` computation shared verbatim by the
markdown and console renderers (source lines 305-308 and 354-357). -/
def sortedTypeKeys (groups : Groups) : List String :=
  sortByKey effPriority (groups.map Prod.fst)

/-- The section lines the markdown renderer appends after its two header lines
(source lines 310-322): per type in sorted order, skip empty commit lists, emit
the level-2 heading and one changelog entry per commit. -/
def mdSectionLines (groups : Groups) : List String :=
  (sortedTypeKeys groups).flatMap (fun commit_type =>
    let commits := (dictGet groups commit_type).getD []
    if commits.isEmpty then []
    else ("\n## " ++ typeIcon commit_type ++ " " ++ typeName commit_type ++ "\n") ::
      commits.map (fun c => generate_changelog_entry c true))

/-- generate_markdown (source lines 298-324); `now` stands for the
`datetime.now().strftime(...)` reading taken during the call. -/
def generate_markdown (groups : Groups) (title : String) (now : String) : String :=
  joinSep "\n" (("# " ++ title) :: ("\nGenerated: " ++ now ++ "\n") :: mdSectionLines groups)

/-- One value of the JSON groups object: display name, icon, and the commit records. -/
structure JsonGroupEntry where
  name : String
  icon : String
  commits : List Commit
deriving DecidableEq

/-- The JSON document produced by generate_json: the generation timestamp and the
ordered key/value sequence of the groups object. -/
structure JsonOutput where
  generated : String
  groups : List (String × JsonGroupEntry)
deriving DecidableEq

/-- generate_json (source lines 327-342). The Python function returns
`json.dumps(output, indent=2)`; `json.dumps` serialises dictionary keys in
insertion order and `json.loads` inverts it, so the document is modelled
structurally. `now` stands for `datetime.now().isoformat()`. -/
def generate_json (groups : Groups) (now : String) : JsonOutput :=
  ⟨now, groups.map (fun p => (p.1, ⟨typeName p.1, typeIcon p.1, p.2⟩))⟩

/-- The banner line `"=" * 60`. -/
def eqBar : String := (List.replicate 60 '=').asString

/-- The divider line `"-" * 40`. -/
def dashBar : String := (List.replicate 40 '-').asString

/-- The lines the console renderer emits for one commit (source lines 371-380). -/
def consoleCommitLines (c : Commit) : List String :=
  let subject := if c.conventional_subject != "" then c.conventional_subject else c.subject
  let context := analyze_change_context c
  ("  • " ++ subject) ::
    ((if context != "" then ["    → " ++ context] else []) ++
      ["    [" ++ c.date.take 10 ++ "]"])

/-- The section lines the console renderer appends after its four header lines
(source lines 359-380). -/
def consoleSectionLines (groups : Groups) : List String :=
  (sortedTypeKeys groups).flatMap (fun commit_type =>
    let commits := (dictGet groups commit_type).getD []
    if commits.isEmpty then []
    else ("\n" ++ typeIcon commit_type ++ " " ++ pyUpper (typeName commit_type)) :: dashBar ::
      commits.flatMap consoleCommitLines)

/-- generate_console (source lines 345-383); `now` stands for the
`datetime.now().strftime(...)` reading taken during the call. -/
def generate_console (groups : Groups) (now : String) : String :=
  joinSep "\n" ((("\n" ++ eqBar) :: "📋 CONTEXT-AWARE CHANGELOG" :: eqBar ::
    ("Generated: " ++ now ++ "\n") :: consoleSectionLines groups) ++ ["\n" ++ eqBar])

/-- Example commit of catalog type chore used by the concrete instances below. -/
def cChore : Commit :=
  ⟨"h1", "do stuff", "", "Ann", "ann@x", "2024-01-01", "chore", none, false, "do stuff", [], [], ""⟩

/-- Example commit of catalog type feat used by the concrete instances below. -/
def cFeat : Commit :=
  ⟨"h2", "feat: add y", "", "Ann", "ann@x", "2024-01-02", "feat", none, false, "add y", [], [], ""⟩

/-- A grouped-commit mapping whose insertion order (chore before feat) disagrees
with the catalog priority order (feat before chore). -/
def gEx : Groups := [("chore", [cChore]), ("feat", [cFeat])]

/-- C1. The claim says the adapter assigns author, email and date from the last
three lines of the show block and the body from everything in between. The code
disagrees: on the block below (subject, one body line, a blank line, then the
three metadata lines) the detection loop breaks at the first non-blank line after
the subject and assigns author := the body line, email := the blank line,
date := the author name, body := empty. -/
theorem c1_show_parse_misassigns :
    parseShowOutput "subj\nThis is the body\n\nAlice\nalice@example.com\n2024-01-01 12:00:00 +0100"
      = ⟨"subj", "", "This is the body", "", "Alice"⟩ := by decide

/-- C3 counterexample. Not every invocation failure yields an empty result: a
missing git binary raises FileNotFoundError, which run_git_command does not catch,
so the failure is escalated rather than mapped to the empty string. -/
theorem c3_counterexample :
    run_git_command GitOutcome.binaryMissing = Except.error PyError.fileNotFoundError
    ∧ run_git_command GitOutcome.binaryMissing ≠ Except.ok "" :=
  ⟨rfl, by intro h; simp [run_git_command] at h⟩

/-- C3 (amended). A git invocation that exits with non-zero status yields the
empty string and is not escalated; a successful invocation yields its stripped
stdout. Only the missing-binary case escapes. -/
theorem c3_nonzero_yields_empty (code : Nat) (out : String) :
    run_git_command (GitOutcome.nonZeroExit code) = Except.ok ""
    ∧ run_git_command (GitOutcome.success out) = Except.ok (pyStrip out) :=
  ⟨rfl, rfl⟩

/-- C6. Issue-reference extraction returns a duplicate-free list whose members are
exactly the union of the three findall result lists, and the text containing both
a keyworded "closes #42" and a bare "#42" yields exactly the one entry "42". -/
theorem c6_issue_extraction :
    (∀ text : String, (extract_issue_references text).Nodup
      ∧ ∀ r : String, r ∈ extract_issue_references text ↔
          (r ∈ findallP1 text ∨ r ∈ findallP2 text ∨ r ∈ findallP3 text))
    ∧ extract_issue_references "closes #42 and #42" = ["42"] := by
  refine ⟨fun text => ⟨List.nodup_dedup _, fun r => ?_⟩, by decide⟩
  simp [extract_issue_references, List.mem_dedup, or_assoc]

/-- C8. File categorization returns a duplicate-free list of at most 3 categories,
each of which was contributed by some file through the fixed per-file branch
chain. -/
theorem c8_file_categories (files : List String) :
    (categorize_files files).Nodup
    ∧ (categorize_files files).length ≤ 3
    ∧ ∀ c ∈ categorize_files files, ∃ f ∈ files, fileCategory f = some c := by
  refine ⟨?_, ?_, ?_⟩
  · exact (List.nodup_dedup _).sublist (List.take_sublist _ _)
  · exact List.length_take_le _ _
  · intro c hc
    obtain ⟨f, hf, he⟩ := List.mem_filterMap.mp (List.mem_dedup.mp (List.mem_of_mem_take hc))
    exact ⟨f, hf, he⟩

/-- C8 witness: the proof above applied at a concrete file list. -/
theorem c8_witness : ∃ f ∈ ["lib/test_util.py"], fileCategory f = some "tests" :=
  (c8_file_categories ["lib/test_util.py"]).2.2 "tests" (by decide)

/-- Membership in an insertion is membership in the inserted element or the list. -/
lemma mem_insertByKey {key : String → Nat} {a x : String} :
    ∀ {l : List String}, x ∈ insertByKey key a l → x = a ∨ x ∈ l := by
  intro l
  induction l with
  | nil => intro h; simp [insertByKey] at h; exact Or.inl h
  | cons b bs ih =>
    intro h
    unfold insertByKey at h
    split at h
    · rcases List.mem_cons.mp h with rfl | h2
      · exact Or.inl rfl
      · exact Or.inr h2
    · rcases List.mem_cons.mp h with rfl | h2
      · exact Or.inr (List.mem_cons_self _ _)
      · rcases ih h2 with rfl | h3
        · exact Or.inl rfl
        · exact Or.inr (List.mem_cons_of_mem _ h3)

/-- Inserting into a list sorted ascending by the key keeps it sorted. -/
lemma sorted_insertByKey {key : String → Nat} {a : String} :
    ∀ {l : List String}, l.Sorted (fun x y => key x ≤ key y) →
      (insertByKey key a l).Sorted (fun x y => key x ≤ key y) := by
  intro l
  induction l with
  | nil => intro _; simp [insertByKey]
  | cons b bs ih =>
    intro h
    rw [List.sorted_cons] at h
    obtain ⟨hb, hbs⟩ := h
    unfold insertByKey
    by_cases hk : key a < key b
    · rw [if_pos hk, List.sorted_cons]
      refine ⟨?_, List.sorted_cons.mpr ⟨hb, hbs⟩⟩
      intro x hx
      rcases List.mem_cons.mp hx with rfl | hx2
      · exact Nat.le_of_lt hk
      · exact Nat.le_trans (Nat.le_of_lt hk) (hb x hx2)
    · rw [if_neg hk, List.sorted_cons]
      refine ⟨?_, ih hbs⟩
      intro x hx
      rcases mem_insertByKey hx with rfl | hx2
      · exact Nat.le_of_not_lt hk
      · exact hb x hx2

/-- The fold of stable insertions keeps any sorted accumulator sorted. -/
lemma sorted_sortByKey_aux {key : String → Nat} :
    ∀ (l acc : List String), acc.Sorted (fun x y => key x ≤ key y) →
      (l.foldl (fun acc a => insertByKey key a acc) acc).Sorted (fun x y => key x ≤ key y) := by
  intro l
  induction l with
  | nil => intro acc h; exact h
  | cons a as ih => intro acc h; exact ih _ (sorted_insertByKey h)

/-- sortByKey produces a list sorted ascending by the key. -/
lemma sorted_sortByKey (key : String → Nat) (l : List String) :
    (sortByKey key l).Sorted (fun x y => key x ≤ key y) :=
  sorted_sortByKey_aux l [] (by simp)

/-- C2 (amended). The markdown and console renderers iterate the type keys in
ascending order of the effective catalog priority (99 for unknown types, hence
after every recognized type); the JSON renderer instead emits its groups object in
the mapping's insertion order. -/
theorem c2_section_order (g : Groups) (now : String) :
    (sortedTypeKeys g).Sorted (fun a b => effPriority a ≤ effPriority b)
    ∧ (generate_json g now).groups.map Prod.fst = g.map Prod.fst := by
  refine ⟨sorted_sortByKey _ _, ?_⟩
  simp [generate_json, List.map_map]

/-- C2 counterexample. On a mapping inserted as chore then feat, the JSON document
emits the sections in that insertion order, which is not ascending catalog
priority, refuting the claim that all three renderers order sections by priority. -/
theorem c2_counterexample :
    (generate_json gEx "T").groups.map Prod.fst = ["chore", "feat"]
    ∧ ¬ ((generate_json gEx "T").groups.map Prod.fst).Sorted
        (fun a b => effPriority a ≤ effPriority b) := by
  have e : (generate_json gEx "T").groups.map Prod.fst = ["chore", "feat"] := by decide
  refine ⟨e, ?_⟩
  intro h
  rw [e] at h
  have h2 := List.rel_of_sorted_cons h "feat" (List.mem_cons_self _ _)
  revert h2
  decide

/-- C9. Reading any type's entry back out of the generated JSON document yields
commits whose hashes agree with the original grouping, element for element and in
the same order. -/
theorem c9_json_roundtrip (g : Groups) (now t : String) (cs : List Commit)
    (h : dictGet g t = some cs) :
    ∃ e, dictGet (generate_json g now).groups t = some e
      ∧ e.commits.map Commit.hash = cs.map Commit.hash := by
  induction g with
  | nil => simp [dictGet] at h
  | cons p rest ih =>
    obtain ⟨a, cs2⟩ := p
    by_cases hp : a = t
    · subst hp
      simp only [dictGet, if_pos] at h
      cases h
      exact ⟨⟨typeName a, typeIcon a, cs⟩, by simp [generate_json, dictGet], rfl⟩
    · simp only [dictGet, if_neg hp] at h
      obtain ⟨e, he, hc⟩ := ih h
      refine ⟨e, ?_, hc⟩
      simpa [generate_json, dictGet, hp] using he

/-- C9 witness: the round-trip theorem applied to a concrete grouping. -/
theorem c9_witness :
    ∃ e, dictGet (generate_json gEx "T").groups "feat" = some e
      ∧ e.commits.map Commit.hash = [cFeat].map Commit.hash :=
  c9_json_roundtrip gEx "T" "feat" [cFeat] (by decide)

/-- The first-match scan returns "chore" or one of the table's category names. -/
lemma firstMatching_mem (sl : String) :
    ∀ tbl : List (String × List String),
      firstMatching sl tbl = "chore" ∨ firstMatching sl tbl ∈ tbl.map Prod.fst := by
  intro tbl
  induction tbl with
  | nil => exact Or.inl rfl
  | cons p rest ih =>
    obtain ⟨cat, words⟩ := p
    unfold firstMatching
    by_cases h : words.any (fun w => pyIn w sl)
    · rw [if_pos h]; exact Or.inr (by simp)
    · rw [if_neg h]
      rcases ih with h1 | h1
      · exact Or.inl h1
      · exact Or.inr (by simp [h1])

/-- The branch chain of infer_commit_type coincides with the first-match scan of
the ordered keyword table. -/
lemma infer_eq_inferSpec (s : String) : infer_commit_type s = inferSpec s := by
  simp only [infer_commit_type, inferSpec, keywordTable, firstMatching]

/-- The branch chain of infer_commit_type returns one of ten literals. -/
lemma infer_commit_type_cases (s : String) :
    infer_commit_type s = "fix" ∨ infer_commit_type s = "feat" ∨
    infer_commit_type s = "docs" ∨ infer_commit_type s = "refactor" ∨
    infer_commit_type s = "perf" ∨ infer_commit_type s = "test" ∨
    infer_commit_type s = "security" ∨ infer_commit_type s = "build" ∨
    infer_commit_type s = "ci" ∨ infer_commit_type s = "chore" := by
  have h := firstMatching_mem (pyLower s) keywordTable
  have h2 : infer_commit_type s = firstMatching (pyLower s) keywordTable :=
    infer_eq_inferSpec s
  rw [← h2] at h
  rcases h with h | h
  · tauto
  · simp only [keywordTable, List.map_cons, List.map_nil, List.mem_cons,
      List.not_mem_nil, or_false] at h
    tauto

/-- C10. The keyword fallback only ever returns one of ten type names, every one of
which is a key of the catalog with priority below 99, so a fallback-classified
commit never takes the unknown-type rendering path: the renderers' effective
priority, display name and icon all come from the catalog entry. -/
theorem c10_fallback_in_catalog (s : String) :
    infer_commit_type s ∈
      ["fix", "feat", "docs", "refactor", "perf", "test", "security", "build", "ci", "chore"]
    ∧ ∃ info, dictGet COMMIT_TYPES (infer_commit_type s) = some info
        ∧ info.priority < 99
        ∧ effPriority (infer_commit_type s) = info.priority
        ∧ typeName (infer_commit_type s) = info.name
        ∧ typeIcon (infer_commit_type s) = info.icon := by
  rcases infer_commit_type_cases s with h | h | h | h | h | h | h | h | h | h <;> rw [h] <;>
    first
    | exact ⟨by decide, ⟨"Bug Fixes", "🐛", 2⟩, by decide⟩
    | exact ⟨by decide, ⟨"Features", "✨", 1⟩, by decide⟩
    | exact ⟨by decide, ⟨"Documentation", "📝", 4⟩, by decide⟩
    | exact ⟨by decide, ⟨"Code Refactoring", "♻️", 5⟩, by decide⟩
    | exact ⟨by decide, ⟨"Performance Improvements", "⚡", 3⟩, by decide⟩
    | exact ⟨by decide, ⟨"Tests", "✅", 8⟩, by decide⟩
    | exact ⟨by decide, ⟨"Security", "🔒", 0⟩, by decide⟩
    | exact ⟨by decide, ⟨"Builds", "📦", 6⟩, by decide⟩
    | exact ⟨by decide, ⟨"CI/CD", "🔧", 9⟩, by decide⟩
    | exact ⟨by decide, ⟨"Maintenance", "🔨", 10⟩, by decide⟩

/-- C5. When the subject does not match the conventional grammar, classification
sets the type to the first keyword category that hits the lowered subject, in the
fixed table order with default "chore", and keeps the whole subject as the
conventional subject. -/
theorem c5_fallback_classification (c : Commit) (h : matchConventional c.subject = none) :
    (parse_conventional_commit c).type = inferSpec c.subject
    ∧ (parse_conventional_commit c).conventional_subject = c.subject := by
  unfold parse_conventional_commit
  rw [h]
  exact ⟨infer_eq_inferSpec _, rfl⟩

/-- Example commit whose subject does not match the conventional grammar. -/
def cFixLogin : Commit :=
  ⟨"h3", "Fix login bug", "", "Ann", "ann@x", "2024-01-03", "unknown", none, false, "", [], [], ""⟩

/-- C5 witness: on the concrete subject "Fix login bug" the fallback classifies
the commit as fix. -/
theorem c5_witness : (parse_conventional_commit cFixLogin).type = "fix" := by
  have h := c5_fallback_classification cFixLogin (by decide)
  exact h.1.trans (by decide)

/-- String append is associative. -/
lemma str_append_assoc (a b c : String) : a ++ b ++ c = a ++ (b ++ c) := by
  cases a; cases b; cases c
  apply congrArg String.mk
  apply List.append_assoc

/-- The empty string is a right identity of append. -/
lemma str_append_empty (a : String) : a ++ "" = a := by
  cases a
  apply congrArg String.mk
  apply List.append_nil

/-- The empty string is a left identity of append. -/
lemma str_empty_append (a : String) : "" ++ a = a := by
  cases a
  apply congrArg String.mk
  apply List.nil_append

/-- Joining a two-or-more element list puts the separator after the first part. -/
lemma joinSep_cons2 (sep x y : String) (ls : List String) :
    joinSep sep (x :: y :: ls) = x ++ sep ++ joinSep sep (y :: ls) := rfl

/-- The head of a joined list factors out against a padded empty first element. -/
lemma joinSep_pull (sep a : String) (ls : List String) :
    joinSep sep (a :: ls) = a ++ joinSep sep ("" :: ls) := by
  cases ls with
  | nil => simp [joinSep, str_append_empty]
  | cons c t => simp [joinSep_cons2, str_append_assoc, str_empty_append]

/-- The markdown output below its two header lines, independent of title and
clock. -/
def mdTail (groups : Groups) : String := joinSep "\n" ("" :: mdSectionLines groups)

/-- The console output below its four header lines (including the closing banner),
independent of the clock. -/
def consoleTail (groups : Groups) : String :=
  joinSep "\n" ("" :: (consoleSectionLines groups ++ ["\n" ++ eqBar]))

/-- C7 (amended). Each renderer is a deterministic function of its inputs together
with the clock reading taken during the call: the markdown and console outputs
factor into a header mentioning the timestamp followed by a tail that depends only
on the groups, and the JSON groups object does not depend on the timestamp at
all. -/
theorem c7_deterministic_given_clock (g : Groups) (title now now2 : String) :
    generate_markdown g title now
      = ("# " ++ title) ++ "\n" ++ (("\nGenerated: " ++ now ++ "\n") ++ mdTail g)
    ∧ generate_console g now
      = ("\n" ++ eqBar) ++ "\n" ++ ("📋 CONTEXT-AWARE CHANGELOG" ++ "\n" ++
          (eqBar ++ "\n" ++ (("Generated: " ++ now ++ "\n") ++ consoleTail g)))
    ∧ (generate_json g now).groups = (generate_json g now2).groups := by
  refine ⟨?_, ?_, rfl⟩
  · unfold generate_markdown mdTail
    rw [joinSep_cons2, joinSep_pull]
  · unfold generate_console consoleTail
    simp only [List.cons_append]
    rw [joinSep_cons2, joinSep_cons2, joinSep_cons2, joinSep_pull]

set_option maxRecDepth 8192 in
/-- C7 counterexample. The renderers are not pure functions of the grouped commits
and format options alone: two invocations on identical inputs but different clock
readings produce different strings (markdown and console), and different JSON
documents. -/
theorem c7_counterexample :
    generate_markdown [] "Changelog" "2024-01-01 00:00"
        ≠ generate_markdown [] "Changelog" "2024-01-02 00:00"
    ∧ generate_console [] "2024-01-01 00:00" ≠ generate_console [] "2024-01-02 00:00"
    ∧ generate_json [] "2024-01-01T00:00:00" ≠ generate_json [] "2024-01-02T00:00:00" := by
  refine ⟨by decide, by decide, ?_⟩
  intro h
  have h2 := congrArg JsonOutput.generated h
  revert h2
  decide

/-- takeWhile keeps a list all of whose elements satisfy the predicate. -/
lemma takeWhile_all {p : Char → Bool} :
    ∀ {xs : List Char}, xs.all p = true → xs.takeWhile p = xs := by
  intro xs
  induction xs with
  | nil => intro _; rfl
  | cons x t ih =>
    intro h
    rw [List.all_cons, Bool.and_eq_true] at h
    simp [List.takeWhile_cons, h.1, ih h.2]

/-- takeWhile of a satisfying block followed by a failing element keeps the block. -/
lemma takeWhile_append_stop {p : Char → Bool} {y : Char} (hy : p y = false) :
    ∀ (xs ys : List Char), xs.all p = true → (xs ++ y :: ys).takeWhile p = xs := by
  intro xs ys
  induction xs with
  | nil => intro _; simp [List.takeWhile_cons, hy]
  | cons x t ih =>
    intro hx
    rw [List.all_cons, Bool.and_eq_true] at hx
    simp [List.takeWhile_cons, hx.1, ih hx.2]

/-- dropWhile of a satisfying block followed by a failing element drops the block. -/
lemma dropWhile_append_stop {p : Char → Bool} {y : Char} (hy : p y = false) :
    ∀ (xs ys : List Char), xs.all p = true → (xs ++ y :: ys).dropWhile p = y :: ys := by
  intro xs ys
  induction xs with
  | nil => intro _; simp [List.dropWhile_cons, hy]
  | cons x t ih =>
    intro hx
    rw [List.all_cons, Bool.and_eq_true] at hx
    simp [List.dropWhile_cons, hx.1, ih hx.2]

/-- When the remainder already matches the dot-plus-dollar tail, the whitespace
backtracking loop succeeds immediately. -/
lemma descLoop_of_dollar {rem d : List Char} (h : dotPlusDollar rem = some d) :
    ∀ wsRev : List Char, descLoop wsRev rem = some d := by
  intro wsRev
  cases wsRev with
  | nil => simpa [descLoop] using h
  | cons c w => simp [descLoop, h]

/-- The description matcher on whitespace followed by a newline-free description
whose first character is not whitespace returns exactly the description. -/
lemma matchDesc_ws_desc {wsL descL : List Char} (hws : wsL.all isPyWs = true)
    (hne : descL ≠ []) (hhd : isPyWs (descL.headD '!') = false)
    (hnl : descL.all (fun ch => ch != '\n') = true) :
    matchDesc (wsL ++ descL) = some descL := by
  obtain ⟨d, ds, rfl⟩ := List.exists_cons_of_ne_nil hne
  have hd : isPyWs d = false := hhd
  unfold matchDesc
  rw [takeWhile_append_stop hd _ _ hws, dropWhile_append_stop hd _ _ hws]
  apply descLoop_of_dollar
  simp [dotPlusDollar, takeWhile_all hnl]

/-- The conventional-commit parser on a subject assembled from a word-character
type token, an optional parenthesised scope, an optional bang, a colon, padding
whitespace and a description returns exactly those components. -/
lemma parseConvList_shape (tyL : List Char) (scOpt : Option (List Char)) (bang : Bool)
    (wsL descL : List Char)
    (hty1 : tyL ≠ []) (hty2 : tyL.all isWordChar = true)
    (hsc : ∀ scL, scOpt = some scL → scL ≠ [] ∧ scL.all (fun ch => ch != ')') = true)
    (hws : wsL.all isPyWs = true) (hne : descL ≠ [])
    (hhd : isPyWs (descL.headD '!') = false)
    (hnl : descL.all (fun ch => ch != '\n') = true) :
    parseConvList (tyL ++ (match scOpt with
        | some scL => '(' :: (scL ++ [')'])
        | none => []) ++ (if bang then ['!'] else []) ++ (':' :: (wsL ++ descL)))
      = some ⟨tyL.asString, scOpt.map List.asString, bang, descL.asString⟩ := by
  have hty0 : tyL.isEmpty = false := by
    cases tyL with
    | nil => exact absurd rfl hty1
    | cons a t => rfl
  have hW : isWordChar '(' = false := by decide
  have hB : isWordChar '!' = false := by decide
  have hC : isWordChar ':' = false := by decide
  have hR : ((')' : Char) != ')') = false := by decide
  have hmd := matchDesc_ws_desc hws hne hhd hnl
  cases scOpt with
  | some scL =>
    obtain ⟨hscne, hscall⟩ := hsc scL rfl
    have hsc0 : scL.isEmpty = false := by
      cases scL with
      | nil => exact absurd rfl hscne
      | cons a t => rfl
    cases bang with
    | true =>
      have hT : (scL ++ ')' :: '!' :: ':' :: (wsL ++ descL)).takeWhile
          (fun c => c != ')') = scL :=
        takeWhile_append_stop (by decide) _ _ hscall
      have hD : (scL ++ ')' :: '!' :: ':' :: (wsL ++ descL)).dropWhile
          (fun c => c != ')') = ')' :: '!' :: ':' :: (wsL ++ descL) :=
        dropWhile_append_stop (by decide) _ _ hscall
      simp [parseConvList, List.append_assoc, takeWhile_append_stop hW,
        dropWhile_append_stop hW, hT, hD, hty0, hsc0, hty2, hmd]
    | false =>
      have hT : (scL ++ ')' :: ':' :: (wsL ++ descL)).takeWhile
          (fun c => c != ')') = scL :=
        takeWhile_append_stop (by decide) _ _ hscall
      have hD : (scL ++ ')' :: ':' :: (wsL ++ descL)).dropWhile
          (fun c => c != ')') = ')' :: ':' :: (wsL ++ descL) :=
        dropWhile_append_stop (by decide) _ _ hscall
      simp [parseConvList, List.append_assoc, takeWhile_append_stop hW,
        dropWhile_append_stop hW, hT, hD, hty0, hsc0, hty2, hmd]
  | none =>
    cases bang with
    | true =>
      simp [parseConvList, List.append_assoc, takeWhile_append_stop hB,
        dropWhile_append_stop hB, hty0, hty2, hmd]
    | false =>
      simp [parseConvList, List.append_assoc, takeWhile_append_stop hC,
        dropWhile_append_stop hC, hty0, hty2, hmd]

/-- C4. For a subject of the conventional shape, classification sets the type to
the lower-cased type token, the scope to the captured scope when present, the
breaking flag to the presence of the bang, and the conventional subject to the
description. -/
theorem c4_conventional_match (tyL : List Char) (scOpt : Option (List Char)) (bang : Bool)
    (wsL descL : List Char) (c : Commit)
    (hty1 : tyL ≠ []) (hty2 : tyL.all isWordChar = true)
    (hsc : ∀ scL, scOpt = some scL → scL ≠ [] ∧ scL.all (fun ch => ch != ')') = true)
    (hws : wsL.all isPyWs = true) (hne : descL ≠ [])
    (hhd : isPyWs (descL.headD '!') = false)
    (hnl : descL.all (fun ch => ch != '\n') = true)
    (hsub : c.subject.toList = tyL ++ (match scOpt with
        | some scL => '(' :: (scL ++ [')'])
        | none => []) ++ (if bang then ['!'] else []) ++ (':' :: (wsL ++ descL))) :
    (parse_conventional_commit c).type = pyLower tyL.asString
    ∧ (parse_conventional_commit c).scope = scOpt.map List.asString
    ∧ (parse_conventional_commit c).breaking = bang
    ∧ (parse_conventional_commit c).conventional_subject = descL.asString := by
  have hm : matchConventional c.subject
      = some ⟨tyL.asString, scOpt.map List.asString, bang, descL.asString⟩ := by
    unfold matchConventional
    rw [hsub]
    exact parseConvList_shape tyL scOpt bang wsL descL hty1 hty2 hsc hws hne hhd hnl
  unfold parse_conventional_commit
  rw [hm]
  exact ⟨rfl, rfl, rfl, rfl⟩

/-- Example commit whose subject is the claim's conventional instance. -/
def cOAuth : Commit :=
  ⟨"h4", "feat(auth)!: add OAuth support", "", "Ann", "ann@x", "2024-01-04",
    "unknown", none, false, "", [], [], ""⟩

/-- C4 witness: the conventional-match theorem applied to the claim's example
subject, with every hypothesis discharged by evaluation. -/
theorem c4_witness :
    (parse_conventional_commit cOAuth).type = "feat"
    ∧ (parse_conventional_commit cOAuth).scope = some "auth"
    ∧ (parse_conventional_commit cOAuth).breaking = true
    ∧ (parse_conventional_commit cOAuth).conventional_subject = "add OAuth support" := by
  have h := c4_conventional_match ['f', 'e', 'a', 't'] (some ['a', 'u', 't', 'h']) true
    [' '] "add OAuth support".toList cOAuth (by decide) (by decide)
    (fun scL hs => by cases hs; exact ⟨by decide, by decide⟩)
    (by decide) (by decide) (by decide) (by decide) (by decide)
  exact ⟨h.1.trans (by decide), h.2.1.trans (by decide), h.2.2.1,
    h.2.2.2.trans (by decide)⟩

end ChangelogGen
